import Mathlib

/-!
Verification of the `javac-rs` classfile emitter and literal grammar.

Each definition below is a shallow embedding of the corresponding Rust item
(same name where Lean allows it).  Machine integers are modelled as `Nat`
with explicit bounds where the Rust code checks them (`checked_add`,
`checked_sub`, `MAX_SIZE` comparisons); `Result<T, E>` is modelled by
`RustResult`; methods taking `&mut self` become functions
`State → State × RustResult T E`, so that side effects performed before an
error are preserved, and eager Rust argument evaluation
(`self.f().and(self.g())` runs both `f` and `g`) is reproduced by explicit
state threading.
-/

namespace JavacRs

/-- Model of Rust `Result<A, E>` (`core::result::Result`). -/
inductive RustResult (α : Type u) (ε : Type v) where
  | ok (value : α)
  | err (error : ε)
deriving DecidableEq, Repr

/-- Model of Rust `Result::and`: returns `other` unless `self` is an error. -/
def RustResult.and : RustResult α ε → RustResult β ε → RustResult β ε
  | .ok _, other => other
  | .err e, _ => .err e

/-- Model of Rust `Result::is_ok`. -/
def RustResult.isOk : RustResult α ε → Bool
  | .ok _ => true
  | .err _ => false

theorem RustResult.and_eq_ok {r₁ : RustResult α ε} {r₂ : RustResult β ε} {b : β} :
    r₁.and r₂ = .ok b ↔ (∃ a, r₁ = .ok a) ∧ r₂ = .ok b := by
  cases r₁ <;> simp [RustResult.and]

/-! ### `vec.rs` — size-limited vector facades (`JvmVecU1`/`JvmVecU2`/`JvmVecU4`)

The Rust macro `impl_size_limited_vec!` instantiates one wrapper per width;
we parameterize by the byte width `w ∈ {1, 2, 4}` instead.  The Rust `len`
does `self.0.len() as $size_type`, a truncating cast, modelled by `% 2 ^ (8 * w)`.
-/

/-- Error enum `JvmVecStoreError` from `vec.rs`. -/
inductive JvmVecStoreError where
  | outOfBounds
deriving DecidableEq, Repr

/-- Error enum `JvmVecCreateError` from `vec.rs`. -/
inductive JvmVecCreateError where
  | sourceTooBig
deriving DecidableEq, Repr

/-- Wrapper around a vector limited in size to the bounds of a `w`-byte
unsigned integer (`JvmVecU1`, `JvmVecU2`, `JvmVecU4` in `vec.rs`). -/
structure JvmVec (w : Nat) (α : Type) where
  data : List α
deriving DecidableEq, Repr

/-- `MAX_SIZE` associated constant: `$size_type::MAX`, i.e. `2 ^ (8 w) − 1`. -/
def JvmVec.MAX_SIZE (w : Nat) : Nat := 2 ^ (8 * w) - 1

/-- `JvmVec::new`. -/
def JvmVec.new (w : Nat) (α : Type) : JvmVec w α := ⟨[]⟩

/-- `JvmVec::len`: `self.0.len() as $size_type` (truncating cast). -/
def JvmVec.len (v : JvmVec w α) : Nat := v.data.length % 2 ^ (8 * w)

/-- `JvmVec::get`: `self.0.get(index as usize)`. -/
def JvmVec.get (v : JvmVec w α) (index : Nat) : Option α := v.data.get? index

/-- `JvmVec::push`: appends when `len < MAX_SIZE`, returning the index of the
new element (the length before the push); otherwise fails with `OutOfBounds`
leaving the vector unchanged. -/
def JvmVec.push (v : JvmVec w α) (element : α) :
    JvmVec w α × RustResult Nat JvmVecStoreError :=
  if v.len < JvmVec.MAX_SIZE w then
    (⟨v.data ++ [element]⟩, .ok v.len)
  else
    (v, .err .outOfBounds)

/-- `TryFrom<Vec<T>> for JvmVec`: fails with `SourceTooBig` when the source
length exceeds `MAX_SIZE`. -/
def JvmVec.try_from (w : Nat) (source : List α) :
    RustResult (JvmVec w α) JvmVecCreateError :=
  if source.length > JvmVec.MAX_SIZE w then
    .err .sourceTooBig
  else
    .ok ⟨source⟩

/-- C10: for every width-bounded JVM vector (modelled for every byte width
`w`) whose length respects the `len ≤ MAX_SIZE` invariant, `push` returns
`Ok i` with `i` the length before the call, stores the element at index `i`,
keeps all previous elements, and grows the length by one; it returns
`Err(OutOfBounds)` exactly when the length equals `MAX_SIZE`, leaving the
vector unchanged. -/
theorem jvm_vec_push_spec (w : Nat) (v : JvmVec w α) (e : α)
    (hinv : v.data.length ≤ JvmVec.MAX_SIZE w) :
    (v.data.length = JvmVec.MAX_SIZE w →
      v.push e = (v, .err .outOfBounds)) ∧
    (v.data.length < JvmVec.MAX_SIZE w →
      (v.push e).2 = .ok v.data.length ∧
      (v.push e).1.data = v.data ++ [e] ∧
      (v.push e).1.get v.data.length = some e ∧
      (∀ i, i < v.data.length → (v.push e).1.get i = v.get i) ∧
      (v.push e).1.data.length = v.data.length + 1) := by
  have hlt : v.data.length < 2 ^ (8 * w) := by
    have h1 : (1 : Nat) ≤ 2 ^ (8 * w) := Nat.one_le_two_pow
    unfold JvmVec.MAX_SIZE at hinv
    omega
  have hlen : v.len = v.data.length := Nat.mod_eq_of_lt hlt
  constructor
  · intro hmax
    simp [JvmVec.push, hlen, hmax]
  · intro hlt2
    refine ⟨?_, ?_, ?_, ?_, ?_⟩
    · simp [JvmVec.push, hlen, hlt2]
    · simp [JvmVec.push, hlen, hlt2]
    · simp [JvmVec.push, JvmVec.get, hlen, hlt2, List.getElem?_concat_length]
    · intro i hi
      simp [JvmVec.push, JvmVec.get, hlen, hlt2, List.getElem?_append_left hi]
    · simp [JvmVec.push, hlen, hlt2]

/-- Witness for C10 at a concrete input: a one-element `JvmVecU1` accepts a
push at index 1. -/
theorem jvm_vec_push_spec_witness :
    ((⟨[5]⟩ : JvmVec 1 Nat).push 7).2 = .ok 1 ∧
    ((⟨[5]⟩ : JvmVec 1 Nat).push 7).1.data = [5, 7] := by
  have h := jvm_vec_push_spec 1 (⟨[5]⟩ : JvmVec 1 Nat) 7 (by decide)
  have h2 := h.2 (by decide)
  exact ⟨h2.1, h2.2.1⟩

/-! ### `constpool.rs` — the deduplicating constant pool

`ConstPoolIndex<T>` and `RawConstPoolIndex` are wrappers around `u16` (the
phantom type parameter has no runtime content), so indices are modelled as
plain `Nat` values; `RawConstPoolIndex::try_from(usize)` keeps its
`< 2 ^ 16` bound check.
-/

/-- Error enum `ConstPoolStoreError` from `constpool.rs`. -/
inductive ConstPoolStoreError where
  | outOfSpace
  | alreadyStored
  | vecValueTooBig
deriving DecidableEq, Repr

/-- Struct `ConstClassInfo`: a Utf8 index. -/
structure ConstClassInfo where
  name : Nat
deriving DecidableEq, Repr

/-- Struct `ConstFieldRefInfo` (field `class` is a Lean keyword, kept quoted). -/
structure ConstFieldRefInfo where
  «class» : Nat
  name_and_type : Nat
deriving DecidableEq, Repr

/-- Struct `ConstMethodRefInfo`. -/
structure ConstMethodRefInfo where
  «class» : Nat
  name_and_type : Nat
deriving DecidableEq, Repr

/-- Struct `ConstInterfaceMethodRefInfo`. -/
structure ConstInterfaceMethodRefInfo where
  «class» : Nat
  name_and_type : Nat
deriving DecidableEq, Repr

/-- Struct `ConstStringInfo`: a Utf8 index. -/
structure ConstStringInfo where
  value : Nat
deriving DecidableEq, Repr

/-- Struct `ConstIntegerInfo`: a `u32` value. -/
structure ConstIntegerInfo where
  value : Nat
deriving DecidableEq, Repr

/-- Struct `ConstFloatInfo`: the `u32` bit pattern of the float. -/
structure ConstFloatInfo where
  value : Nat
deriving DecidableEq, Repr

/-- Struct `ConstLongInfo`: a `u64` value. -/
structure ConstLongInfo where
  value : Nat
deriving DecidableEq, Repr

/-- Struct `ConstDoubleInfo`: the `u64` bit pattern of the double. -/
structure ConstDoubleInfo where
  value : Nat
deriving DecidableEq, Repr

/-- Struct `ConstNameAndTypeInfo`: two Utf8 indices. -/
structure ConstNameAndTypeInfo where
  name : Nat
  descriptor : Nat
deriving DecidableEq, Repr

/-- Struct `ConstUtf8Info`: a `JvmVecU2<u8>` of bytes. -/
structure ConstUtf8Info where
  bytes : JvmVec 2 Nat
deriving DecidableEq, Repr

/-- Struct `ConstMethodTypeInfo`: a Utf8 index. -/
structure ConstMethodTypeInfo where
  descriptor : Nat
deriving DecidableEq, Repr

/-- Struct `ConstDynamicInfo`. -/
structure ConstDynamicInfo where
  bootstrap_method_attribute_index : Nat
  name_and_type : Nat
deriving DecidableEq, Repr

/-- Struct `ConstInvokeDynamicInfo`. -/
structure ConstInvokeDynamicInfo where
  bootstrap_method_attribute_index : Nat
  name_and_type : Nat
deriving DecidableEq, Repr

/-- Struct `ConstModuleInfo`: a Utf8 index. -/
structure ConstModuleInfo where
  name : Nat
deriving DecidableEq, Repr

/-- Struct `ConstPackageInfo`: a Utf8 index. -/
structure ConstPackageInfo where
  name : Nat
deriving DecidableEq, Repr

/-- Enum `ConstMethodHandleInfo`, nine reference kinds each wrapping an index. -/
inductive ConstMethodHandleInfo where
  | GetField (index : Nat)
  | GetStatic (index : Nat)
  | PutField (index : Nat)
  | PutStatic (index : Nat)
  | InvokeVirtual (index : Nat)
  | InvokeStatic (index : Nat)
  | InvokeSpecial (index : Nat)
  | NewInvokeSpecial (index : Nat)
  | InvokeInterface (index : Nat)
deriving DecidableEq, Repr

/-- Enum `ConstPoolEntry` from `constpool.rs` (all 17 variants plus `Empty`);
`PartialEq`/`Eq` are derived structurally, matching Lean's `=`. -/
inductive ConstPoolEntry where
  | Empty
  | Class (info : ConstClassInfo)
  | FieldRef (info : ConstFieldRefInfo)
  | MethodRef (info : ConstMethodRefInfo)
  | InterfaceMethodRef (info : ConstInterfaceMethodRefInfo)
  | String (info : ConstStringInfo)
  | Integer (info : ConstIntegerInfo)
  | Float (info : ConstFloatInfo)
  | Long (info : ConstLongInfo)
  | Double (info : ConstDoubleInfo)
  | NameAndType (info : ConstNameAndTypeInfo)
  | Utf8 (info : ConstUtf8Info)
  | MethodHandle (info : ConstMethodHandleInfo)
  | MethodType (info : ConstMethodTypeInfo)
  | Dynamic (info : ConstDynamicInfo)
  | InvokeDynamic (info : ConstInvokeDynamicInfo)
  | Module (info : ConstModuleInfo)
  | Package (info : ConstPackageInfo)
deriving DecidableEq, Repr

/-- The `Tagged::tag` impl for `ConstPoolEntry`; `Empty` has no tag and the
Rust code panics there, modelled as `none`. -/
def ConstPoolEntry.tag : ConstPoolEntry → Option Nat
  | .Empty => none
  | .Class _ => some 7
  | .FieldRef _ => some 9
  | .MethodRef _ => some 10
  | .InterfaceMethodRef _ => some 11
  | .String _ => some 8
  | .Integer _ => some 3
  | .Float _ => some 4
  | .Long _ => some 5
  | .Double _ => some 6
  | .NameAndType _ => some 12
  | .Utf8 _ => some 1
  | .MethodHandle _ => some 15
  | .MethodType _ => some 16
  | .Dynamic _ => some 17
  | .InvokeDynamic _ => some 18
  | .Module _ => some 19
  | .Package _ => some 20

/-- Struct `ConstPool`: entries held in a `JvmVecU2`. -/
structure ConstPool where
  entries : JvmVec 2 ConstPoolEntry
deriving DecidableEq, Repr

/-- Model of `Iterator::position`: index of the first element satisfying the
predicate. -/
def listPosition (p : α → Prop) [DecidablePred p] : List α → Option Nat
  | [] => none
  | a :: rest => if p a then some 0 else (listPosition p rest).map (· + 1)

/-- `ConstPool::new`: pushes the `Empty` entry into a fresh vector
(the push result is discarded in the source). -/
def ConstPool.new : ConstPool :=
  let entries := (JvmVec.new 2 ConstPoolEntry).push .Empty
  ⟨entries.1⟩

/-- `ConstPool::raw_index_of`: position of the first structurally equal
entry, converted through `RawConstPoolIndex::try_from` (bound `< 2 ^ 16`). -/
def ConstPool.raw_index_of (pool : ConstPool) (entry : ConstPoolEntry) :
    Option Nat :=
  (listPosition (· = entry) pool.entries.data).bind
    (fun index => if index < 2 ^ 16 then some index else none)

/-- `ConstPool::index_of`: the typed wrapper around `raw_index_of`
(the phantom type is erased in this model). -/
def ConstPool.index_of (pool : ConstPool) (entry : ConstPoolEntry) :
    Option Nat :=
  pool.raw_index_of entry

/-- `ConstPool::force_store_raw`: push, mapping the vector error to
`OutOfSpace`. -/
def ConstPool.force_store_raw (pool : ConstPool) (entry : ConstPoolEntry) :
    ConstPool × RustResult Nat ConstPoolStoreError :=
  let r := pool.entries.push entry
  match r.2 with
  | .ok index => (⟨r.1⟩, .ok index)
  | .err _ => (⟨r.1⟩, .err .outOfSpace)

/-- `ConstPool::force_store` (typed twin of `force_store_raw`). -/
def ConstPool.force_store (pool : ConstPool) (entry : ConstPoolEntry) :
    ConstPool × RustResult Nat ConstPoolStoreError :=
  pool.force_store_raw entry

/-- `ConstPool::store_raw`: dedup lookup, else append. -/
def ConstPool.store_raw (pool : ConstPool) (entry : ConstPoolEntry) :
    ConstPool × RustResult Nat ConstPoolStoreError :=
  match pool.raw_index_of entry with
  | some index => (pool, .ok index)
  | none => pool.force_store_raw entry

/-- `ConstPool::store` (typed twin of `store_raw`, used by all
`store_entry_info` impls). -/
def ConstPool.store (pool : ConstPool) (entry : ConstPoolEntry) :
    ConstPool × RustResult Nat ConstPoolStoreError :=
  match pool.index_of entry with
  | some index => (pool, .ok index)
  | none => pool.force_store entry

/-- `ConstPool::store_const_integer_info`. -/
def ConstPool.store_const_integer_info (pool : ConstPool) (value : Nat) :
    ConstPool × RustResult Nat ConstPoolStoreError :=
  pool.store (.Integer ⟨value⟩)

/-- `ConstPool::store_const_long_info`. -/
def ConstPool.store_const_long_info (pool : ConstPool) (value : Nat) :
    ConstPool × RustResult Nat ConstPoolStoreError :=
  pool.store (.Long ⟨value⟩)

/-- `ConstPool::store_const_double_info` (takes the `u64` bit pattern that
`ConstDoubleInfo::from` extracts from the `f64`). -/
def ConstPool.store_const_double_info (pool : ConstPool) (bits : Nat) :
    ConstPool × RustResult Nat ConstPoolStoreError :=
  pool.store (.Double ⟨bits⟩)

/-- `ConstPool::store_const_utf8_info`: `value.into_bytes().try_into()?`
converts the byte vector, failing with `VecValueTooBig` when it does not fit
in a `JvmVecU2`; the string is modelled by its UTF-8 byte list. -/
def ConstPool.store_const_utf8_info (pool : ConstPool) (value : List Nat) :
    ConstPool × RustResult Nat ConstPoolStoreError :=
  match JvmVec.try_from 2 value with
  | .err _ => (pool, .err .vecValueTooBig)
  | .ok bytes => pool.store (.Utf8 ⟨bytes⟩)

/-- `ConstPool::store_const_class_info`: stores the Utf8 name first, then the
`Class` entry referencing it. -/
def ConstPool.store_const_class_info (pool : ConstPool) (name : List Nat) :
    ConstPool × RustResult Nat ConstPoolStoreError :=
  match pool.store_const_utf8_info name with
  | (p, .err e) => (p, .err e)
  | (p, .ok index) => p.store (.Class ⟨index⟩)

/-! ### `class.rs` — the top-level class container (for the panic analysis) -/

/-- Struct `ClassfileVersion`. -/
structure ClassfileVersion where
  major_version : Nat
  minor_version : Nat
deriving DecidableEq, Repr

/-- Struct `Class` (fields `fields`, `methods` and `attributes` start empty in
`Class::new` and are untouched by the operations modelled here, so their
element types are not spelled out). -/
structure Class where
  version : ClassfileVersion
  const_pool : ConstPool
  access_flags : Nat
  this_class : Nat
  super_class : Nat
  interfaces : JvmVec 2 Nat
deriving DecidableEq, Repr

/-- `Class::new`: interns the class and super-class names with `.unwrap()`
("const-pool should contain minimal space thus unwraps are safe"); an
`unwrap` of an `Err` is a Rust panic, modelled as `none`. -/
def Class.new (version : ClassfileVersion) (access_flags : Nat)
    (this_class super_class : List Nat) : Option Class :=
  match ConstPool.new.store_const_class_info this_class with
  | (_, .err _) => none
  | (p1, .ok this_index) =>
    match p1.store_const_class_info super_class with
    | (_, .err _) => none
    | (p2, .ok super_index) =>
      some { version := version, const_pool := p2,
             access_flags := access_flags, this_class := this_index,
             super_class := super_index,
             interfaces := JvmVec.new 2 Nat }

/-! ### Properties of `listPosition` used for the dedup proofs -/

theorem listPosition_some (p : α → Prop) [DecidablePred p] (l : List α)
    (i : Nat) (h : listPosition p l = some i) :
    i < l.length ∧ ∃ a, l.get? i = some a ∧ p a := by
  induction l generalizing i with
  | nil => simp [listPosition] at h
  | cons a rest ih =>
    by_cases hpa : p a
    · simp [listPosition, hpa] at h
      subst h
      exact ⟨Nat.succ_pos _, a, rfl, hpa⟩
    · simp [listPosition, hpa] at h
      obtain ⟨j, hj, hji⟩ := h
      obtain ⟨hlt, b, hb, hpb⟩ := ih j hj
      subst hji
      exact ⟨Nat.succ_lt_succ hlt, b, by simpa using hb, hpb⟩

theorem listPosition_none (p : α → Prop) [DecidablePred p] (l : List α)
    (h : listPosition p l = none) : ∀ x ∈ l, ¬ p x := by
  induction l with
  | nil => simp
  | cons a rest ih =>
    by_cases hpa : p a
    · simp [listPosition, hpa] at h
    · simp [listPosition, hpa] at h
      intro x hx
      rcases List.mem_cons.mp hx with hxa | hxr
      · subst hxa; exact hpa
      · exact ih h x hxr

theorem listPosition_append_none (p : α → Prop) [DecidablePred p]
    (l : List α) (x : α) (hl : listPosition p l = none) (hx : p x) :
    listPosition p (l ++ [x]) = some l.length := by
  induction l with
  | nil => simp [listPosition, hx]
  | cons a rest ih =>
    by_cases hpa : p a
    · simp [listPosition, hpa] at hl
    · simp [listPosition, hpa] at hl ⊢
      simp [ih hl]

/-! ### Claims C2, C5, C8 -/

/-- C2: storing a Long entry appends only the entry itself, with no `Empty`
filler slot, and the next store of a distinct entry returns index `n + 1`
(not `n + 2`): on a fresh pool the Long lands at index 1, the pool is
`[Empty, Long 5]`, and the next Integer store returns 2. -/
theorem long_store_has_no_filler_slot :
    (ConstPool.new.store_const_long_info 5).2 = .ok 1 ∧
    (ConstPool.new.store_const_long_info 5).1.entries.data =
      [.Empty, .Long ⟨5⟩] ∧
    ((ConstPool.new.store_const_long_info 5).1.store_const_integer_info 7).2 =
      .ok 2 ∧
    ((ConstPool.new.store_const_long_info 5).1.store_const_integer_info 7).2 ≠
      .ok 3 := by
  decide

theorem const_pool_store_ok_shape (pool p1 : ConstPool)
    (e : ConstPoolEntry) (i : Nat)
    (hinv : pool.entries.data.length ≤ JvmVec.MAX_SIZE 2)
    (h : pool.store e = (p1, .ok i)) :
    p1.entries.data.get? i = some e ∧ i < p1.entries.data.length ∧
    p1.entries.data.length ≤ JvmVec.MAX_SIZE 2 ∧
    ((p1 = pool ∧ pool.raw_index_of e = some i) ∨
      (p1.entries.data = pool.entries.data ++ [e] ∧
        i = pool.entries.data.length ∧ pool.raw_index_of e = none)) := by
  have hlt : pool.entries.data.length < 2 ^ (8 * 2) := by
    unfold JvmVec.MAX_SIZE at hinv
    omega
  have hlen : pool.entries.len = pool.entries.data.length := by
    unfold JvmVec.len
    exact Nat.mod_eq_of_lt hlt
  cases hpos : listPosition (· = e) pool.entries.data with
  | some k =>
    obtain ⟨hklt, a, ha, hae⟩ := listPosition_some _ _ _ hpos
    have hae' : a = e := hae
    rw [hae'] at ha
    have hk16 : k < 65536 := by
      unfold JvmVec.MAX_SIZE at hinv
      omega
    have hidx : pool.raw_index_of e = some k := by
      unfold ConstPool.raw_index_of
      rw [hpos]
      simp [hk16]
    have hstore : pool.store e = (pool, .ok k) := by
      unfold ConstPool.store ConstPool.index_of
      rw [hidx]
    rw [hstore] at h
    injection h with hp hki
    injection hki with hki
    subst hki
    subst hp
    exact ⟨ha, hklt, hinv, Or.inl ⟨rfl, hidx⟩⟩
  | none =>
    have hidx : pool.raw_index_of e = none := by
      unfold ConstPool.raw_index_of
      rw [hpos]
      rfl
    have hstore : pool.store e = pool.force_store_raw e := by
      unfold ConstPool.store ConstPool.index_of ConstPool.force_store
      rw [hidx]
    rw [hstore] at h
    unfold ConstPool.force_store_raw JvmVec.push at h
    by_cases hsp : pool.entries.len < JvmVec.MAX_SIZE 2
    · rw [if_pos hsp] at h
      injection h with hp hki
      injection hki with hki
      subst hp
      rw [hlen] at hki
      subst hki
      rw [hlen] at hsp
      refine ⟨?_, ?_, ?_, Or.inr ⟨rfl, rfl, hidx⟩⟩
      · simp [List.getElem?_concat_length]
      · simp
      · simp only [List.length_append, List.length_singleton]
        omega
    · rw [if_neg hsp] at h
      injection h with hp hki
      cases hki

/-- C5: for every constant pool respecting the length invariant, storing an
entry that was already stored returns the same index and leaves the pool
unchanged, and storing two structurally distinct entries returns distinct
indices. -/
theorem const_pool_store_dedup_distinct :
    (∀ (pool p1 : ConstPool) (e : ConstPoolEntry) (i : Nat),
      pool.entries.data.length ≤ JvmVec.MAX_SIZE 2 →
      pool.store e = (p1, .ok i) →
      p1.store e = (p1, .ok i)) ∧
    (∀ (pool p1 p2 : ConstPool) (e1 e2 : ConstPoolEntry) (i1 i2 : Nat),
      pool.entries.data.length ≤ JvmVec.MAX_SIZE 2 →
      e1 ≠ e2 →
      pool.store e1 = (p1, .ok i1) →
      p1.store e2 = (p2, .ok i2) →
      i1 ≠ i2) := by
  constructor
  · intro pool p1 e i hinv h
    obtain ⟨hget, hilt, hinv1, hcase⟩ :=
      const_pool_store_ok_shape pool p1 e i hinv h
    rcases hcase with ⟨hp, hfound⟩ | ⟨hdata, hi, hnone⟩
    · subst hp
      unfold ConstPool.store ConstPool.index_of
      simp [hfound]
    · have hposnone : listPosition (· = e) pool.entries.data = none := by
        unfold ConstPool.raw_index_of at hnone
        cases hpos : listPosition (· = e) pool.entries.data with
        | none => rfl
        | some k =>
          obtain ⟨hklt, a, ha, hae⟩ := listPosition_some _ _ _ hpos
          simp [hpos] at hnone
          have : pool.entries.data.length < 2 ^ (8 * 2) := by
            unfold JvmVec.MAX_SIZE at hinv
            omega
          omega
      have hpos1 : listPosition (· = e) p1.entries.data =
          some pool.entries.data.length := by
        rw [hdata]
        exact listPosition_append_none _ _ _ hposnone rfl
      unfold ConstPool.store ConstPool.index_of ConstPool.raw_index_of
      have hbound : pool.entries.data.length < 65536 := by
        unfold JvmVec.MAX_SIZE at hinv
        omega
      simp [hpos1, hbound, hi]
  · intro pool p1 p2 e1 e2 i1 i2 hinv hne h1 h2
    obtain ⟨hget1, hilt1, hinv1, _⟩ :=
      const_pool_store_ok_shape pool p1 e1 i1 hinv h1
    obtain ⟨hget2, hilt2, hinv2, hcase2⟩ :=
      const_pool_store_ok_shape p1 p2 e2 i2 hinv1 h2
    intro heq
    subst heq
    rcases hcase2 with ⟨hp, _⟩ | ⟨hdata, hi, _⟩
    · subst hp
      rw [hget1] at hget2
      exact hne (Option.some.injEq .. ▸ hget2)
    · omega

/-- Witness for C5 at concrete inputs: storing `Integer 123` twice on a fresh
pool returns index 1 both times, and the distinct `Integer 456` gets a
different index. -/
theorem const_pool_store_dedup_distinct_witness :
    (ConstPool.new.store (.Integer ⟨123⟩)).1.store (.Integer ⟨123⟩) =
      ((ConstPool.new.store (.Integer ⟨123⟩)).1, .ok 1) ∧
    1 ≠ 2 := by
  constructor
  · exact const_pool_store_dedup_distinct.1 ConstPool.new
      (ConstPool.new.store (.Integer ⟨123⟩)).1 (.Integer ⟨123⟩) 1
      (by decide) (by decide)
  · exact const_pool_store_dedup_distinct.2 ConstPool.new
      (ConstPool.new.store (.Integer ⟨123⟩)).1
      ((ConstPool.new.store (.Integer ⟨123⟩)).1.store (.Integer ⟨456⟩)).1
      (.Integer ⟨123⟩) (.Integer ⟨456⟩) 1 2
      (by decide) (by decide) (by decide) (by decide)

theorem store_const_utf8_info_too_big (pool : ConstPool) (value : List Nat)
    (h : value.length > JvmVec.MAX_SIZE 2) :
    pool.store_const_utf8_info value = (pool, .err .vecValueTooBig) := by
  unfold ConstPool.store_const_utf8_info JvmVec.try_from
  rw [if_pos h]

theorem store_const_class_info_too_big (pool : ConstPool) (name : List Nat)
    (h : name.length > JvmVec.MAX_SIZE 2) :
    pool.store_const_class_info name = (pool, .err .vecValueTooBig) := by
  unfold ConstPool.store_const_class_info
  rw [store_const_utf8_info_too_big pool name h]

theorem class_new_long_name_err (version : ClassfileVersion)
    (access_flags : Nat) (this_class super_class : List Nat)
    (h : this_class.length > JvmVec.MAX_SIZE 2) :
    Class.new version access_flags this_class super_class = none := by
  unfold Class.new
  rw [store_const_class_info_too_big ConstPool.new this_class h]

/-- C8: `Class::new` panics (hits `.unwrap()` on an `Err`) when the class
name does not fit a `JvmVecU2` of bytes, e.g. a 65536-byte name, so not every
failure path of the public API returns a structured error value. -/
theorem class_new_panics_on_long_name :
    Class.new ⟨58, 0⟩ 0x21 (List.replicate 65536 97) [88] = none :=
  class_new_long_name_err ⟨58, 0⟩ 0x21 (List.replicate 65536 97) [88]
    (by rw [List.length_replicate]; unfold JvmVec.MAX_SIZE; norm_num)

/-! ### `bytecode.rs` — the bytecode assembler

`Bytecode` keeps `max_stack`, `max_locals`, the `JvmVecU4<u8>` code buffer
and the live `stack` counter; the `exception_tables` and `attributes`
vectors are untouched by every instruction operation and are omitted.
`u16` arithmetic uses the same `checked_sub`/`checked_add` guards as the
source.  Rust evaluates `self.f(..).and(self.g(..))` eagerly — both `f` and
`g` mutate `self` even when `f` failed — so every operation threads the
state through each step and combines the results with `RustResult.and`.
-/

/-- Error enum `BytecodeUpdateError` from `bytecode.rs`. -/
inductive BytecodeUpdateError where
  | outOfSpace
  | corruptedStack
  | localIndexOutOfBounds
  | tooMuchMethodParameters
  | invalidType
deriving DecidableEq, Repr

/-- Struct `Bytecode` (state fields only, see the section comment). -/
structure Bytecode where
  max_stack : Nat
  max_locals : Nat
  code : JvmVec 4 Nat
  stack : Nat
deriving DecidableEq, Repr

/-- Rust `u16::checked_sub`. -/
def u16_checked_sub (a b : Nat) : Option Nat :=
  if b ≤ a then some (a - b) else none

/-- Rust `u16::checked_add`. -/
def u16_checked_add (a b : Nat) : Option Nat :=
  if a + b ≤ 65535 then some (a + b) else none

/-- Rust `u16::to_be_bytes`. -/
def u16_to_be_bytes (n : Nat) : List Nat := [n / 256 % 256, n % 256]

/-- Rust `u16::to_le_bytes`. -/
def u16_to_le_bytes (n : Nat) : List Nat := [n % 256, n / 256 % 256]

/-- `Bytecode::new`. -/
def Bytecode.new (max_locals : Nat) : Bytecode :=
  { max_stack := 0, max_locals := max_locals,
    code := JvmVec.new 4 Nat, stack := 0 }

/-- `Bytecode::check_local_index`: fails when the index reaches `max_locals`. -/
def Bytecode.check_local_index (b : Bytecode) (local_index : Nat) :
    RustResult Unit BytecodeUpdateError :=
  if local_index ≥ b.max_locals then .err .localIndexOutOfBounds else .ok ()

/-- `Bytecode::stack_update`: the source matches on `(dec, inc)`; its final
arm is written `(inc, dec) => ...`, which binds the pop count to the name
`inc` and the push count to the name `dec`, so in that arm the code computes
`stack.checked_sub(inc).checked_add(dec)` with the roles swapped — the
translation reproduces that swap literally. -/
def Bytecode.stack_update (b : Bytecode) (dec inc : Nat) :
    Bytecode × RustResult Unit BytecodeUpdateError :=
  if dec = 0 then
    if inc = 0 then
      (b, .ok ())
    else
      match u16_checked_add b.stack inc with
      | none => (b, .err .corruptedStack)
      | some stack =>
        ({ b with stack := stack, max_stack := max b.max_stack stack }, .ok ())
  else
    if inc = 0 then
      match u16_checked_sub b.stack dec with
      | none => (b, .err .corruptedStack)
      | some stack => ({ b with stack := stack }, .ok ())
    else
      match (u16_checked_sub b.stack inc).bind
          (fun stack => u16_checked_add stack dec) with
      | none => (b, .err .corruptedStack)
      | some stack =>
        ({ b with stack := stack, max_stack := max b.max_stack stack }, .ok ())

/-- Conversion of the `JvmVecStoreError` into `BytecodeUpdateError::OutOfSpace`
performed by the `#[from]` attribute through the `?` operator. -/
def bres_of_vec : RustResult Nat JvmVecStoreError →
    RustResult Nat BytecodeUpdateError
  | .ok n => .ok n
  | .err _ => .err .outOfSpace

/-- Modelled from the spec: `JvmVec::extend_from_slice` is called by
`Bytecode::push_ops` but is not defined in the sources under `src/`; per the
spec the operand bytes are appended to the code buffer (failing with the
vector bound error when they do not fit), and, like `push`, the offset of the
first appended byte is returned. -/
def JvmVec.extend_from_slice (v : JvmVec w α) (operands : List α) :
    JvmVec w α × RustResult Nat JvmVecStoreError :=
  if v.len + operands.length ≤ JvmVec.MAX_SIZE w then
    (⟨v.data ++ operands⟩, .ok v.len)
  else
    (v, .err .outOfBounds)

/-- `Bytecode::push_instr`: pushes the opcode byte. -/
def Bytecode.push_instr (b : Bytecode) (opcode : Nat) :
    Bytecode × RustResult Nat BytecodeUpdateError :=
  ({ b with code := (b.code.push opcode).1 },
    bres_of_vec (b.code.push opcode).2)

/-- `Bytecode::push_ops`: appends the operand bytes. -/
def Bytecode.push_ops (b : Bytecode) (operands : List Nat) :
    Bytecode × RustResult Nat BytecodeUpdateError :=
  ({ b with code := (b.code.extend_from_slice operands).1 },
    bres_of_vec (b.code.extend_from_slice operands).2)

/-- `Bytecode::slot_size`. -/
def Bytecode.slot_size (fat : Bool) : Nat := if fat then 2 else 1

/-- `Bytecode::access_local`: the short specific form for indices 0–3, the
single-byte generic form for `index < u8::MAX` (that is `< 255`), the
`wide`-prefixed form otherwise; the single-byte arm also performs the
source's (stray) `stack_update(0, 1)`. -/
def Bytecode.access_local (b : Bytecode)
    (generic_opcode specific_0_opcode index : Nat) :
    Bytecode × RustResult Nat BytecodeUpdateError :=
  if index ≤ 3 then
    b.push_instr (specific_0_opcode + index)
  else if index < 255 then
    let r₁ := b.stack_update 0 1
    let r₂ := r₁.1.push_instr generic_opcode
    let r₃ := r₂.1.push_ops [index % 256]
    (r₃.1, (r₁.2.and r₂.2).and r₃.2)
  else
    let r₁ := b.push_instr 0xc4
    let r₂ := r₁.1.push_instr generic_opcode
    let r₃ := r₂.1.push_ops (u16_to_be_bytes index)
    (r₃.1, (r₁.2.and r₂.2).and r₃.2)

/-- `Bytecode::instr_load`. -/
def Bytecode.instr_load (b : Bytecode)
    (generic_opcode specific_0_opcode index : Nat) (fat : Bool) :
    Bytecode × RustResult Nat BytecodeUpdateError :=
  let r₁ := b.check_local_index index
  let r₂ := b.stack_update 0 (Bytecode.slot_size fat)
  let r₃ := r₂.1.access_local generic_opcode specific_0_opcode index
  (r₃.1, (r₁.and r₂.2).and r₃.2)

/-- `Bytecode::instr_store`. -/
def Bytecode.instr_store (b : Bytecode)
    (generic_opcode specific_0_opcode index : Nat) (fat : Bool) :
    Bytecode × RustResult Nat BytecodeUpdateError :=
  let r₁ := b.check_local_index index
  let r₂ := b.stack_update (Bytecode.slot_size fat) 0
  let r₃ := r₂.1.access_local generic_opcode specific_0_opcode index
  (r₃.1, (r₁.and r₂.2).and r₃.2)

/-- `Bytecode::instr_iconst_0`: `stack_update(0, 1)` then opcode `0x3`. -/
def Bytecode.instr_iconst_0 (b : Bytecode) :
    Bytecode × RustResult Nat BytecodeUpdateError :=
  let r₁ := b.stack_update 0 1
  let r₂ := r₁.1.push_instr 0x3
  (r₂.1, r₁.2.and r₂.2)

/-- `Bytecode::instr_iadd`: `stack_update(2, 1)` then opcode `0x60`. -/
def Bytecode.instr_iadd (b : Bytecode) :
    Bytecode × RustResult Nat BytecodeUpdateError :=
  let r₁ := b.stack_update 2 1
  let r₂ := r₁.1.push_instr 0x60
  (r₂.1, r₁.2.and r₂.2)

/-- `Bytecode::instr_iload`. -/
def Bytecode.instr_iload (b : Bytecode) (index : Nat) :
    Bytecode × RustResult Nat BytecodeUpdateError :=
  b.instr_load 0x15 0x1a index false

/-- `Bytecode::instr_istore`. -/
def Bytecode.instr_istore (b : Bytecode) (index : Nat) :
    Bytecode × RustResult Nat BytecodeUpdateError :=
  b.instr_store 0x36 0x3b index false

/-- `Bytecode::instr_sipush`: `stack_update(0, 1)`, opcode byte `0x56`, then
the big-endian operand bytes. -/
def Bytecode.instr_sipush (b : Bytecode) (value : Nat) :
    Bytecode × RustResult Nat BytecodeUpdateError :=
  let r₁ := b.stack_update 0 1
  let r₂ := r₁.1.push_instr 0x56
  let r₃ := r₂.1.push_ops (u16_to_be_bytes value)
  (r₃.1, (r₁.2.and r₂.2).and r₃.2)

/-- `Bytecode::instr_ldc`: `stack_update(0, 1)`, then `ldc` (`0x12`) with the
single index byte when the index fits in a `u8`, else `ldc_w` (`0x13`) with
`value.to_le_bytes()` — the little-endian bytes of the index. -/
def Bytecode.instr_ldc (b : Bytecode) (value : Nat) :
    Bytecode × RustResult Nat BytecodeUpdateError :=
  let r₁ := b.stack_update 0 1
  if value ≤ 255 then
    let r₂ := r₁.1.push_instr 0x12
    let r₃ := r₂.1.push_ops [value % 256]
    (r₃.1, r₁.2.and (r₂.2.and r₃.2))
  else
    let r₂ := r₁.1.push_instr 0x13
    let r₃ := r₂.1.push_ops (u16_to_le_bytes value)
    (r₃.1, r₁.2.and (r₂.2.and r₃.2))

/-! ### Claims C1, C3, C4 -/

/-- C1: the final arm of `stack_update` swaps its pop and push counts, so
with `stack = 1` the instruction `iadd` (pop 2, push 1 per the JVM spec)
succeeds instead of failing with `CorruptedStack`, and leaves `stack = 2`
and `max_stack = 2` where the spec-sum of the deltas is `0` with peak `1`:
stack accounting, max-stack tracking and the underflow check all diverge
from the claim. -/
theorem iadd_stack_update_swapped :
    ((Bytecode.new 0).instr_iconst_0).2 = .ok 0 ∧
    ((Bytecode.new 0).instr_iconst_0).1.stack = 1 ∧
    (((Bytecode.new 0).instr_iconst_0).1.instr_iadd).2 = .ok 1 ∧
    (((Bytecode.new 0).instr_iconst_0).1.instr_iadd).1.stack = 2 ∧
    (((Bytecode.new 0).instr_iconst_0).1.instr_iadd).1.max_stack = 2 := by
  decide

/-- C3: `instr_sipush` appends opcode `0x56` (the `sastore` opcode) instead
of the JVM-mandated `0x11`, and `instr_ldc` in its `ldc_w` branch appends
the index little-endian instead of big-endian. -/
theorem sipush_ldc_emitted_bytes :
    ((Bytecode.new 0).instr_sipush 0x0102).1.code.data = [0x56, 0x01, 0x02] ∧
    ((Bytecode.new 0).instr_sipush 0x0102).2.isOk = true ∧
    [0x56, 0x01, 0x02] ≠ [0x11, 0x01, 0x02] ∧
    ((Bytecode.new 0).instr_ldc 0x0102).1.code.data = [0x13, 0x02, 0x01] ∧
    ((Bytecode.new 0).instr_ldc 0x0102).2.isOk = true ∧
    [0x13, 0x02, 0x01] ≠ ([0x13] ++ u16_to_be_bytes 0x0102) := by
  decide

/-- Counterexample to C4: at local index 255 (which is `< 256`) the code
emits the wide form `C4 15 00 FF`, not the claimed generic single-byte form
`15 FF`. -/
theorem iload_255_emits_wide_form :
    ((Bytecode.new 256).instr_iload 255).1.code.data =
      [0xc4, 0x15, 0x00, 0xff] ∧
    ((Bytecode.new 256).instr_iload 255).2.isOk = true ∧
    [0xc4, 0x15, 0x00, 0xff] ≠ [0x15, 0xff] := by
  decide

/-- The local-access encoding actually selected by `access_local`:
short specific form for 0–3, generic single-byte form for `4 ≤ n < 255`,
wide form for `n ≥ 255`. -/
def localAccessBytes (generic_opcode specific_0_opcode index : Nat) :
    List Nat :=
  if index ≤ 3 then [specific_0_opcode + index]
  else if index < 255 then [generic_opcode, index]
  else [0xc4, generic_opcode] ++ u16_to_be_bytes index

theorem stack_update_code (b : Bytecode) (dec inc : Nat) :
    (b.stack_update dec inc).1.code = b.code := by
  unfold Bytecode.stack_update
  split_ifs <;> first | rfl | (split <;> rfl)

theorem push_instr_ok (b : Bytecode) (opcode k : Nat)
    (h : (b.push_instr opcode).2 = .ok k) :
    (b.push_instr opcode).1.code.data = b.code.data ++ [opcode] := by
  unfold Bytecode.push_instr JvmVec.push at h ⊢
  by_cases hc : b.code.len < JvmVec.MAX_SIZE 4
  · rw [if_pos hc]
  · rw [if_neg hc] at h
    simp [bres_of_vec] at h

theorem push_ops_ok (b : Bytecode) (operands : List Nat) (k : Nat)
    (h : (b.push_ops operands).2 = .ok k) :
    (b.push_ops operands).1.code.data = b.code.data ++ operands := by
  unfold Bytecode.push_ops JvmVec.extend_from_slice at h ⊢
  by_cases hc : b.code.len + operands.length ≤ JvmVec.MAX_SIZE 4
  · rw [if_pos hc]
  · rw [if_neg hc] at h
    simp [bres_of_vec] at h

theorem access_local_ok (b : Bytecode) (g s0 index k : Nat)
    (h : (b.access_local g s0 index).2 = .ok k) :
    (b.access_local g s0 index).1.code.data =
      b.code.data ++ localAccessBytes g s0 index := by
  unfold Bytecode.access_local at h ⊢
  unfold localAccessBytes
  by_cases h3 : index ≤ 3
  · simp only [if_pos h3] at h ⊢
    exact push_instr_ok b (s0 + index) k h
  · simp only [if_neg h3] at h ⊢
    by_cases h255 : index < 255
    · rw [if_pos h255] at h
      rw [if_pos h255, if_pos h255]
      obtain ⟨⟨a, h12⟩, hops⟩ := RustResult.and_eq_ok.mp h
      obtain ⟨⟨u, hsu⟩, hpi⟩ := RustResult.and_eq_ok.mp h12
      have hc1 := stack_update_code b 0 1
      have hc2 := push_instr_ok (b.stack_update 0 1).1 g a hpi
      have hc3 := push_ops_ok ((b.stack_update 0 1).1.push_instr g).1
        [index % 256] k hops
      rw [hc3, hc2, hc1, Nat.mod_eq_of_lt (by omega)]
      simp
    · rw [if_neg h255] at h
      rw [if_neg h255, if_neg h255]
      obtain ⟨⟨a, h12⟩, hops⟩ := RustResult.and_eq_ok.mp h
      obtain ⟨⟨u, hwid⟩, hpi⟩ := RustResult.and_eq_ok.mp h12
      have hc2 := push_instr_ok b 0xc4 u hwid
      have hc3 := push_instr_ok (b.push_instr 0xc4).1 g a hpi
      have hc4 := push_ops_ok ((b.push_instr 0xc4).1.push_instr g).1
        (u16_to_be_bytes index) k hops
      rw [hc4, hc3, hc2]
      simp [u16_to_be_bytes]

/-- Amended C4: for every load or store of local index `n` that succeeds,
the appended bytes are the short specific-index form for `n ∈ {0,1,2,3}`,
the generic single-byte form for `4 ≤ n < 255`, and the `wide` (0xC4)
two-byte-index form for `n ≥ 255` (the source compares against `u8::MAX`,
so 255 itself already takes the wide form). -/
theorem instr_load_store_emitted_form (b : Bytecode) (g s0 index : Nat)
    (fat : Bool) (k : Nat) :
    ((b.instr_load g s0 index fat).2 = .ok k →
      (b.instr_load g s0 index fat).1.code.data =
        b.code.data ++ localAccessBytes g s0 index) ∧
    ((b.instr_store g s0 index fat).2 = .ok k →
      (b.instr_store g s0 index fat).1.code.data =
        b.code.data ++ localAccessBytes g s0 index) := by
  constructor
  · intro h
    unfold Bytecode.instr_load at h ⊢
    simp only at h ⊢
    obtain ⟨⟨a, h12⟩, hacc⟩ := RustResult.and_eq_ok.mp h
    have hcode := access_local_ok (b.stack_update 0 (Bytecode.slot_size fat)).1
      g s0 index k hacc
    rw [hcode, stack_update_code]
  · intro h
    unfold Bytecode.instr_store at h ⊢
    simp only at h ⊢
    obtain ⟨⟨a, h12⟩, hacc⟩ := RustResult.and_eq_ok.mp h
    have hcode := access_local_ok (b.stack_update (Bytecode.slot_size fat) 0).1
      g s0 index k hacc
    rw [hcode, stack_update_code]

/-- Witness for the amended C4 at concrete inputs: a successful `iload 0`
emits the short form, and a successful `istore 0` (on a bytecode whose
stack holds one slot) does too. -/
theorem instr_load_store_emitted_form_witness :
    ((Bytecode.new 1).instr_load 0x15 0x1a 0 false).1.code.data =
      (Bytecode.new 1).code.data ++ localAccessBytes 0x15 0x1a 0 ∧
    ((⟨1, 1, JvmVec.new 4 Nat, 1⟩ : Bytecode).instr_store
        0x36 0x3b 0 false).1.code.data =
      (⟨1, 1, JvmVec.new 4 Nat, 1⟩ : Bytecode).code.data ++
        localAccessBytes 0x36 0x3b 0 := by
  constructor
  · exact (instr_load_store_emitted_form (Bytecode.new 1) 0x15 0x1a 0 false
      0).1 (by decide)
  · exact (instr_load_store_emitted_form (⟨1, 1, JvmVec.new 4 Nat, 1⟩ : Bytecode)
      0x36 0x3b 0 false 0).2 (by decide)

/-! ### `parser/literals.rs` — numeric literal conversion

`parse_integer_number::<u32, i32>` strips underscores, parses the digits with
`u32::from_str_radix`, and reinterprets the bits as `i32`
(`PrimitiveFrom<u32> for i32` is `source as i32`).  `from_str_radix` is the
Rust standard library's: an optional sign, then at least one digit valid for
the radix, accumulated with overflow checking against the type's width
(a minus sign always fails for an unsigned target).
-/

/-- Model of Rust `char::to_digit` before the radix check: the numeric value
of 0–9 / a–z / A–Z. -/
def char_digit_value (c : Char) : Option Nat :=
  if 48 ≤ c.toNat ∧ c.toNat ≤ 57 then some (c.toNat - 48)
  else if 97 ≤ c.toNat ∧ c.toNat ≤ 122 then some (c.toNat - 87)
  else if 65 ≤ c.toNat ∧ c.toNat ≤ 90 then some (c.toNat - 55)
  else none

/-- One accumulation step of `from_str_radix`: the digit must be valid for
the radix (`to_digit(radix)`) and the running value must stay below `bound`,
the first value overflowing the target type (`checked_mul` / `checked_add`). -/
def from_str_radix_step (bound radix : Nat) (acc : Option Nat) (c : Char) :
    Option Nat :=
  acc.bind fun a => (char_digit_value c).bind fun d =>
    if d < radix ∧ a * radix + d < bound then some (a * radix + d)
    else none

/-- Model of Rust `from_str_radix` for a `width`-bit unsigned integer type
(`none` models `ParseIntError`): empty input fails, a `+` sign is skipped,
a `-` sign fails for the unsigned target, then the digits are accumulated. -/
def from_str_radix_unsigned (width : Nat) (s : List Char) (radix : Nat) :
    Option Nat :=
  match s with
  | [] => none
  | c :: rest =>
    let digits := if c = '+' then rest else if c = '-' then [] else s
    if digits = [] then none
    else digits.foldl (from_str_radix_step (2 ^ width) radix) (some 0)

/-- `parse_number_i32` = `parse_integer_number::<u32, i32>`: underscores
stripped, parsed as `u32`, reinterpreted `as i32`. -/
def parse_number_i32 (digits : List Char) (radix : Nat) :
    RustResult Int String :=
  match from_str_radix_unsigned 32 (digits.filter (fun c => c ≠ '_')) radix with
  | some value =>
    .ok (if value < 2 ^ 31 then (value : Int) else (value : Int) - 2 ^ 32)
  | none => .err "integer literal cannot be parsed"

/-- `parse_number_i64` = `parse_integer_number::<u64, i64>`. -/
def parse_number_i64 (digits : List Char) (radix : Nat) :
    RustResult Int String :=
  match from_str_radix_unsigned 64 (digits.filter (fun c => c ≠ '_')) radix with
  | some value =>
    .ok (if value < 2 ^ 63 then (value : Int) else (value : Int) - 2 ^ 64)
  | none => .err "integer literal cannot be parsed"

/-- Numeric value of a string of decimal digit characters. -/
def decimal_digits_value (ds : List Char) : Nat :=
  ds.foldl (fun a c => a * 10 + (c.toNat - 48)) 0

theorem foldl_step_none (bound radix : Nat) (ds : List Char) :
    ds.foldl (from_str_radix_step bound radix) none = none := by
  induction ds with
  | nil => rfl
  | cons c rest ih =>
    simpa [from_str_radix_step] using ih

theorem decimal_foldl_ge (ds : List Char) (a : Nat) :
    a ≤ ds.foldl (fun x c => x * 10 + (c.toNat - 48)) a := by
  induction ds generalizing a with
  | nil => exact le_refl a
  | cons c rest ih =>
    calc a ≤ a * 10 + (c.toNat - 48) := by omega
    _ ≤ rest.foldl (fun x c => x * 10 + (c.toNat - 48))
        (a * 10 + (c.toNat - 48)) := ih _

theorem foldl_step_decimal (bound : Nat) (ds : List Char) (a : Nat)
    (hdig : ∀ c ∈ ds, 48 ≤ c.toNat ∧ c.toNat ≤ 57) (ha : a < bound) :
    ds.foldl (from_str_radix_step bound 10) (some a) =
      if ds.foldl (fun x c => x * 10 + (c.toNat - 48)) a < bound then
        some (ds.foldl (fun x c => x * 10 + (c.toNat - 48)) a)
      else none := by
  induction ds generalizing a with
  | nil => simp [ha]
  | cons c rest ih =>
    obtain ⟨hc1, hc2⟩ := hdig c (List.mem_cons_self c rest)
    have hcd : char_digit_value c = some (c.toNat - 48) := by
      unfold char_digit_value
      rw [if_pos ⟨hc1, hc2⟩]
    have hd10 : c.toNat - 48 < 10 := by omega
    by_cases hov : a * 10 + (c.toNat - 48) < bound
    · have hstep : from_str_radix_step bound 10 (some a) c =
          some (a * 10 + (c.toNat - 48)) := by
        unfold from_str_radix_step
        rw [Option.some_bind, hcd, Option.some_bind, if_pos ⟨hd10, hov⟩]
      rw [List.foldl_cons, List.foldl_cons, hstep]
      exact ih _ (fun x hx => hdig x (List.mem_cons_of_mem c hx)) hov
    · have hstep : from_str_radix_step bound 10 (some a) c = none := by
        unfold from_str_radix_step
        rw [Option.some_bind, hcd, Option.some_bind,
          if_neg (fun hand => hov hand.2)]
      rw [List.foldl_cons, List.foldl_cons, hstep, foldl_step_none]
      have hge : a * 10 + (c.toNat - 48) ≤
          rest.foldl (fun x c => x * 10 + (c.toNat - 48))
            (a * 10 + (c.toNat - 48)) := decimal_foldl_ge rest _
      rw [if_neg (by omega)]

theorem from_str_radix_decimal (width : Nat) (ds : List Char)
    (hne : ds ≠ []) (hdig : ∀ c ∈ ds, 48 ≤ c.toNat ∧ c.toNat ≤ 57) :
    from_str_radix_unsigned width ds 10 =
      if decimal_digits_value ds < 2 ^ width then
        some (decimal_digits_value ds)
      else none := by
  cases ds with
  | nil => exact absurd rfl hne
  | cons c rest =>
    obtain ⟨hc1, hc2⟩ := hdig c (List.mem_cons_self c rest)
    have hplus : c ≠ '+' := by
      intro h
      rw [h] at hc1
      simp at hc1
    have hminus : c ≠ '-' := by
      intro h
      rw [h] at hc1
      simp at hc1
    unfold from_str_radix_unsigned
    simp only [if_neg hplus, if_neg hminus]
    rw [if_neg (by simp)]
    exact foldl_step_decimal (2 ^ width) (c :: rest) 0 hdig
      (Nat.pos_pow_of_pos width (by omega))

theorem filter_underscore_of_digits (ds : List Char)
    (hdig : ∀ c ∈ ds, 48 ≤ c.toNat ∧ c.toNat ≤ 57) :
    ds.filter (fun c => c ≠ '_') = ds := by
  apply List.filter_eq_self.mpr
  intro c hc
  obtain ⟨h1, h2⟩ := hdig c hc
  simp only [ne_eq, decide_eq_true_eq]
  intro h
  rw [h] at h2
  simp at h2

/-- Counterexample to C6: the decimal literal 2147483649 does not overflow
the unsigned `u32` form (it is below `2^32`), so `parse_number_i32` accepts
it and returns the reinterpreted value −2147483647 instead of failing. -/
theorem parse_int_2147483649_succeeds :
    parse_number_i32 "2147483649".data 10 = .ok (-2147483647) ∧
    (parse_number_i32 "2147483649".data 10).isOk = true := by
  decide

/-- Amended C6: an int literal is parsed into a `u32` by its radix (with
underscores stripped) and reinterpreted as `i32`, and only overflow of the
unsigned form fails: 2147483648 parses to `i32::MIN`, 2147483649 parses to
−2147483647, 4294967295 parses to −1, and the first failing decimal literal
is 4294967296 = `u32::MAX + 1` (analogously for long with `u64`/`i64` at
`2^64`, not `2^63`); in general a nonempty decimal literal of value `v`
parses to the `u32 → i32` reinterpretation of `v` when `v < 2^32` and fails
otherwise. -/
theorem int_literal_unsigned_reinterpretation :
    parse_number_i32 "2147483648".data 10 = .ok (-2147483648) ∧
    parse_number_i32 "2147483649".data 10 = .ok (-2147483647) ∧
    parse_number_i32 "4294967295".data 10 = .ok (-1) ∧
    parse_number_i32 "4294967296".data 10 =
      .err "integer literal cannot be parsed" ∧
    parse_number_i64 "9223372036854775808".data 10 =
      .ok (-9223372036854775808) ∧
    parse_number_i64 "9223372036854775809".data 10 =
      .ok (-9223372036854775807) ∧
    parse_number_i64 "18446744073709551616".data 10 =
      .err "integer literal cannot be parsed" ∧
    (∀ ds : List Char, ds ≠ [] → (∀ c ∈ ds, 48 ≤ c.toNat ∧ c.toNat ≤ 57) →
      parse_number_i32 ds 10 =
        if decimal_digits_value ds < 2 ^ 32 then
          .ok (if decimal_digits_value ds < 2 ^ 31 then
                (decimal_digits_value ds : Int)
              else (decimal_digits_value ds : Int) - 2 ^ 32)
        else .err "integer literal cannot be parsed") := by
  refine ⟨by decide, by decide, by decide, by decide, by decide, by decide,
    by decide, ?_⟩
  intro ds hne hdig
  unfold parse_number_i32
  rw [filter_underscore_of_digits ds hdig,
    from_str_radix_decimal 32 ds hne hdig]
  by_cases hv : decimal_digits_value ds < 2 ^ 32
  · rw [if_pos hv, if_pos hv]
  · rw [if_neg hv, if_neg hv]

/-- Witness for the general clause of the amended C6 at a concrete input:
the literal 17 parses through the unsigned route. -/
theorem int_literal_unsigned_reinterpretation_witness :
    parse_number_i32 "17".data 10 =
      if decimal_digits_value "17".data < 2 ^ 32 then
        .ok (if decimal_digits_value "17".data < 2 ^ 31 then
              (decimal_digits_value "17".data : Int)
            else (decimal_digits_value "17".data : Int) - 2 ^ 32)
      else .err "integer literal cannot be parsed" :=
  int_literal_unsigned_reinterpretation.2.2.2.2.2.2.2 "17".data
    (by decide) (by decide)

/-! ### `parser/mod.rs` and `parse_from_parts` — hex float literals (C7)

The hex alternative of the PEG rule `float_number` matches
`hex_number_prefix` (`"0"` then `x`/`X`), a hex significand, `p`/`P`, a
signed decimal exponent, and the `f`/`F` suffix, and evaluates
`parse_from_parts::<f32>(int, frac, exp, 16)`, which parses each digit
group with `i64::from_str_radix(.., 16)` and reassembles the DECIMAL-form
string `{int}.{frac}e{exp}` for the platform's float parser.
-/

/-- Rust `char::is_ascii_digit`. -/
def is_ascii_digit (c : Char) : Bool :=
  decide (48 ≤ c.toNat ∧ c.toNat ≤ 57)

/-- Hex digit class of the PEG rule `hex_digit` (0–9, A–F, a–f). -/
def is_hex_digit (c : Char) : Bool :=
  decide ((48 ≤ c.toNat ∧ c.toNat ≤ 57) ∨ (65 ≤ c.toNat ∧ c.toNat ≤ 70) ∨
    (97 ≤ c.toNat ∧ c.toNat ≤ 102))

/-- Model of Rust `i64::from_str_radix`: optional sign, then digits
accumulated against the signed 64-bit bounds. -/
def from_str_radix_i64 (s : List Char) (radix : Nat) : Option Int :=
  match s with
  | [] => none
  | c :: rest =>
    if c = '+' then
      if rest = [] then none
      else (rest.foldl (from_str_radix_step (2 ^ 63) radix) (some 0)).map
        (fun v => (v : Int))
    else if c = '-' then
      if rest = [] then none
      else (rest.foldl (from_str_radix_step (2 ^ 63 + 1) radix) (some 0)).map
        (fun v => -(v : Int))
    else
      ((c :: rest).foldl (from_str_radix_step (2 ^ 63) radix) (some 0)).map
        (fun v => (v : Int))

/-- `parse_from_parts` up to (but not including) its final `.parse::<T>()`:
each digit group is parsed with `i64::from_str_radix` in the declared radix
(absent groups default to 0 via `map_or(Ok(0), ..)`) and the results are
formatted into the decimal-form string `{int}.{frac}e{exp}` that is handed
to the platform's IEEE-754 parser. -/
def parse_from_parts_string
    (integer_digits decimal_digits exponent_digits : Option (List Char))
    (radix : Nat) : RustResult String String :=
  match (match integer_digits with
         | none => some 0
         | some d => from_str_radix_i64 d radix) with
  | none => .err "integer literal cannot be parsed"
  | some a =>
    match (match decimal_digits with
           | none => some 0
           | some d => from_str_radix_i64 d radix) with
    | none => .err "integer literal cannot be parsed"
    | some b =>
      match (match exponent_digits with
             | none => some 0
             | some d => from_str_radix_i64 d radix) with
      | none => .err "integer literal cannot be parsed"
      | some c =>
        .ok (toString a ++ "." ++ toString b ++ "e" ++ toString c)

/-- PEG rule `number(digit)` loop `(digit_separator()* digit()+)*`,
with explicit fuel (each iteration consumes at least one character, so
`fuel = input length` is enough). -/
def peg_number_tail (isDigit : Char → Bool) : Nat → List Char →
    List Char × List Char
  | 0, s => ([], s)
  | fuel + 1, s =>
    let us := s.takeWhile (fun c => c == '_')
    let s1 := s.drop us.length
    let ds := s1.takeWhile isDigit
    if ds = [] then ([], s)
    else
      let r := peg_number_tail isDigit fuel (s1.drop ds.length)
      (us ++ ds ++ r.1, r.2)

/-- PEG rule `number(digit)`: `digit() (digit_separator()* digit()+)*`,
returning the matched slice and the rest. -/
def peg_number (isDigit : Char → Bool) (s : List Char) :
    Option (List Char × List Char) :=
  match s with
  | c :: rest =>
    if isDigit c then
      let r := peg_number_tail isDigit rest.length rest
      some (c :: r.1, r.2)
    else none
  | [] => none

/-- PEG rule `float_number_significand`: ordered choice of
`number()? "." number()` and `number() "." number()?` (PEG optionals are
greedy and are not retried when the rest of the sequence fails). -/
def float_number_significand
    (number : List Char → Option (List Char × List Char)) (s : List Char) :
    Option (Option (List Char) × Option (List Char) × List Char) :=
  (match (match number s with
          | some r => (some r.1, r.2)
          | none => (none, s) : Option (List Char) × List Char) with
   | (ints, r1) =>
     match r1 with
     | '.' :: r2 =>
       match number r2 with
       | some r3 => some (ints, some r3.1, r3.2)
       | none => none
     | _ => none)
  |>.orElse (fun _ =>
    match number s with
    | some r1 =>
      match r1.2 with
      | '.' :: r2 =>
        match number r2 with
        | some r3 => some (some r1.1, some r3.1, r3.2)
        | none => some (some r1.1, none, r2)
      | _ => none
    | none => none)

/-- PEG rule `signed_number`: `$(['+' | '-']? decimal_number())`. -/
def signed_number (s : List Char) : Option (List Char × List Char) :=
  match s with
  | c :: rest =>
    if c = '+' ∨ c = '-' then
      match peg_number is_ascii_digit rest with
      | some r => some (c :: r.1, r.2)
      | none => none
    else peg_number is_ascii_digit s
  | [] => none

/-- The hex alternative of PEG rule `float_number`: prefix, significand,
exponent indicator, signed exponent, `parse_from_parts(.., 16)` (modelled up
to the assembled decimal string), then the `f`/`F` suffix.  Returns the
assembled string result and the unconsumed input. -/
def float_number_hex_assembled (s : List Char) :
    Option (RustResult String String × List Char) :=
  match s with
  | '0' :: x :: rest =>
    if x = 'X' ∨ x = 'x' then
      match float_number_significand (peg_number is_hex_digit) rest with
      | some (ints, fracs, r1) =>
        match r1 with
        | p :: r2 =>
          if p = 'P' ∨ p = 'p' then
            match signed_number r2 with
            | some es =>
              match es.2 with
              | f :: r4 =>
                if f = 'F' ∨ f = 'f' then
                  some (parse_from_parts_string ints fracs (some es.1) 16, r4)
                else none
              | [] => none
            | none => none
          else none
        | [] => none
      | none => none
    else none
  | _ => none

/-- Modelled from the spec: the platform's IEEE-754 string parser receives
the decimal-form string `{int}.{frac}e{exp}`; this gives the exact rational
value that string denotes (the IEEE result is that value correctly
rounded). -/
def decimal_string_value (s : String) : Option ℚ :=
  match s.data with
  | [] => none
  | cs =>
    match (match cs with
           | '-' :: t => (true, t)
           | _ => (false, cs) : Bool × List Char) with
    | (neg, cs0) =>
      match cs0.takeWhile is_ascii_digit, cs0.dropWhile is_ascii_digit with
      | [], _ => none
      | ip, '.' :: cs2 =>
        match cs2.takeWhile is_ascii_digit, cs2.dropWhile is_ascii_digit with
        | [], _ => none
        | fp, 'e' :: cs4 =>
          match (match cs4 with
                 | '-' :: t => (true, t)
                 | '+' :: t => (false, t)
                 | _ => (false, cs4) : Bool × List Char) with
          | (eneg, cs5) =>
            match cs5.takeWhile is_ascii_digit,
                cs5.dropWhile is_ascii_digit with
            | [], _ => none
            | ep, [] =>
              let mant : ℚ := (decimal_digits_value ip : ℚ) +
                (decimal_digits_value fp : ℚ) / 10 ^ fp.length
              let m : ℚ := if neg then -mant else mant
              some (if eneg then m / 10 ^ decimal_digits_value ep
                    else m * 10 ^ decimal_digits_value ep)
            | _, _ => none
        | _, _ => none
      | _, _ => none

/-- C7: parsing the hex float literal `0xA.Bp1f` assembles the decimal
string `10.11e1` — the decimal re-spelling of the hex digit values with an
`e` (power of ten) exponent — whose value is 101.1, not the JLS value
`0xA.B × 2^1 = 21.375`. -/
theorem hex_float_reassembled_as_decimal :
    float_number_hex_assembled "0xA.Bp1f".data =
      some (.ok "10.11e1", []) ∧
    decimal_string_value "10.11e1" = some (1011 / 10 : ℚ) ∧
    (1011 / 10 : ℚ) ≠ (171 / 8 : ℚ) := by
  refine ⟨by decide, ?_, by norm_num⟩
  have hval : decimal_string_value "10.11e1" =
      some (((decimal_digits_value ['1', '0'] : ℚ) +
        (decimal_digits_value ['1', '1'] : ℚ) / 10 ^ (2 : Nat)) *
          10 ^ (1 : Nat)) := rfl
  have h10 : decimal_digits_value ['1', '0'] = 10 := by decide
  have h11 : decimal_digits_value ['1', '1'] = 11 := by decide
  rw [hval, h10, h11]
  norm_num

/-! ### `parser/mod.rs` — the line-comment rule (C9) -/

/-- PEG rule `line_terminator`: ordered choice `"\n\r"` / `['\n' | '\r']`,
returning the rest of the input after the consumed terminator. -/
def line_terminator (s : List Char) : Option (List Char) :=
  match s with
  | c :: d :: rest =>
    if c = '\n' ∧ d = '\r' then some rest
    else if c = '\n' ∨ c = '\r' then some (d :: rest)
    else none
  | [c] => if c = '\n' ∨ c = '\r' then some [] else none
  | [] => none

/-- PEG rule `inline_comment`:
`inline_comment_start()` (`"//"`), then the body
`$((!line_terminator() [_])*)` — the maximal run of characters at which
`line_terminator` does not match, i.e. characters other than `'\n'` and
`'\r'` — then `(line_terminator() / ![_])`: the terminator itself is parsed
(and consumed), or end of input is required.  Returns the body slice and
the remaining input. -/
def inline_comment (s : List Char) : Option (List Char × List Char) :=
  match s with
  | '/' :: '/' :: rest =>
    let body := rest.takeWhile (fun c => !(c == '\n' || c == '\r'))
    let tail := rest.drop body.length
    match line_terminator tail with
    | some rest2 => some (body, rest2)
    | none => if tail = [] then some (body, tail) else none
  | _ => none

/-- Counterexample to C9: on `"//a\nb"` the rule consumes past the line
terminator — the remaining input is `"b"`, not `"\nb"`. -/
theorem inline_comment_consumes_terminator :
    inline_comment "//a\nb".data = some ("a".data, "b".data) ∧
    "b".data ≠ '\n' :: "b".data := by
  decide

theorem drop_length_takeWhile (p : α → Bool) (l : List α) :
    l.drop (l.takeWhile p).length = l.dropWhile p := by
  induction l with
  | nil => rfl
  | cons a t ih =>
    by_cases hpa : p a
    · simp [List.takeWhile_cons, List.dropWhile_cons, hpa, ih]
    · simp [List.takeWhile_cons, List.dropWhile_cons, hpa]

theorem dropWhile_head_false (p : α → Bool) (l : List α) (c : α) (t : List α)
    (h : l.dropWhile p = c :: t) : p c = false := by
  induction l with
  | nil => simp at h
  | cons a l ih =>
    rw [List.dropWhile_cons] at h
    by_cases hpa : p a
    · rw [if_pos hpa] at h
      exact ih h
    · rw [if_neg hpa] at h
      injection h with h1 h2
      rw [← h1]
      exact Bool.of_not_eq_true hpa

theorem line_terminator_of_term (c : Char) (t : List Char)
    (h : c = '\n' ∨ c = '\r') : ∃ r, line_terminator (c :: t) = some r := by
  cases t with
  | nil =>
    refine ⟨[], ?_⟩
    show (if c = '\n' ∨ c = '\r' then some [] else none) = some []
    rw [if_pos h]
  | cons d t2 =>
    by_cases hcd : c = '\n' ∧ d = '\r'
    · refine ⟨t2, ?_⟩
      show (if c = '\n' ∧ d = '\r' then some t2
            else if c = '\n' ∨ c = '\r' then some (d :: t2) else none) =
          some t2
      rw [if_pos hcd]
    · refine ⟨d :: t2, ?_⟩
      show (if c = '\n' ∧ d = '\r' then some t2
            else if c = '\n' ∨ c = '\r' then some (d :: t2) else none) =
          some (d :: t2)
      rw [if_neg hcd, if_pos h]

/-- Amended C9: for every input starting with `"//"` the line-comment rule
matches; its body is the maximal prefix free of line terminators (so the
body excludes the terminator), and the rule consumes the comment text AND
the line terminator itself when one is present (at end of input nothing
further is consumed). -/
theorem inline_comment_spec (cs : List Char) :
    inline_comment ('/' :: '/' :: cs) =
      some (cs.takeWhile (fun c => !(c == '\n' || c == '\r')),
        (line_terminator
          (cs.dropWhile (fun c => !(c == '\n' || c == '\r')))).getD
          (cs.dropWhile (fun c => !(c == '\n' || c == '\r')))) ∧
    (∀ c ∈ cs.takeWhile (fun c => !(c == '\n' || c == '\r')),
      c ≠ '\n' ∧ c ≠ '\r') ∧
    (line_terminator (cs.dropWhile (fun c => !(c == '\n' || c == '\r'))) =
        none →
      cs.dropWhile (fun c => !(c == '\n' || c == '\r')) = []) := by
  have hdrop : cs.drop
      (cs.takeWhile (fun c => !(c == '\n' || c == '\r'))).length =
      cs.dropWhile (fun c => !(c == '\n' || c == '\r')) :=
    drop_length_takeWhile _ cs
  have hnone : line_terminator
      (cs.dropWhile (fun c => !(c == '\n' || c == '\r'))) = none →
      cs.dropWhile (fun c => !(c == '\n' || c == '\r')) = [] := by
    intro h
    cases hd : cs.dropWhile (fun c => !(c == '\n' || c == '\r')) with
    | nil => rfl
    | cons c t =>
      have hpc := dropWhile_head_false _ cs c t hd
      have hterm : c = '\n' ∨ c = '\r' :=
        or_iff_not_imp_left.mpr (by simpa using hpc)
      obtain ⟨r, hr⟩ := line_terminator_of_term c t hterm
      rw [hd, hr] at h
      cases h
  refine ⟨?_, ?_, hnone⟩
  · unfold inline_comment
    simp only [hdrop]
    cases hlt : line_terminator
        (cs.dropWhile (fun c => !(c == '\n' || c == '\r'))) with
    | some r => simp [hlt]
    | none =>
      have he := hnone hlt
      rw [he]
      simp
  · intro c hc
    have := List.mem_takeWhile_imp hc
    simpa using this

end JavacRs
